import Mathlib

/-!
Shallow embedding of the dispensary scraping engine
(`src/agents/dispensary_scraper/`): data model, field extractors,
dedup loop, retry wrapper and run coordinator, with theorems checking
the natural-language specification against the code.

Numeric modelling: Python float prices / weights / percentages are
modelled as exact rationals (ℚ); every value the code manipulates is a
short decimal literal, for which rational arithmetic is faithful.
Python strings are modelled as Lean `String` / `List Char`; the regex
character classes involved (`\d`, `\s`, `\w`) are modelled over the
ASCII range that the scraped texts use.
-/

/-- Python `round(x, ndigits)` rounds half to even (banker's rounding);
this is the integer-result core, rounding a rational to the nearest
integer with ties going to the even neighbour. -/
def roundHalfEven (q : ℚ) : ℤ :=
  let f : ℤ := ⌊q⌋
  let r : ℚ := q - f
  if r < 1/2 then f
  else if 1/2 < r then f + 1
  else if f % 2 = 0 then f else f + 1

/-- Python `round(x, 2)` as used in `ProductData.calculate_price_per_g`
(`models.py:28`): round to two decimal places, half to even. -/
def round2 (q : ℚ) : ℚ := (roundHalfEven (q * 100) : ℚ) / 100

/-- Embeds `ProductData` (`models.py:8`).  The pydantic model's `state`
defaults to `"FL"` and every optional field to `None`; `scraped_at`
(a wall-clock timestamp) is not represented, no claim depends on it. -/
structure ProductData where
  state : String := "FL"
  store : String
  subcategory : String
  name : String
  brand : Option String := none
  strain_type : Option String := none
  thc_pct : Option ℚ := none
  size_raw : Option String := none
  grams : Option ℚ := none
  price : Option ℚ := none
  price_per_g : Option ℚ := none
  url : Option String := none
deriving Repr, DecidableEq

/-- Embeds `ProductData.calculate_price_per_g` (`models.py:25-28`):
`if self.price and self.grams and self.grams > 0: self.price_per_g =
round(self.price / self.grams, 2)`.  Python truthiness on an optional
float (`if self.price`) is: present and nonzero; hence the `pr ≠ 0`
and `g ≠ 0` conjuncts. -/
def calculate_price_per_g (p : ProductData) : ProductData :=
  match p.price, p.grams with
  | some pr, some g =>
      if pr ≠ 0 ∧ g ≠ 0 ∧ 0 < g then
        { p with price_per_g := some (round2 (pr / g)) }
      else p
  | _, _ => p

/-- Concrete product used as counterexample input for the
price-per-gram claim: price present but equal to 0, grams 1. -/
def pdPriceZero : ProductData :=
  { store := "Trulieve Miami", subcategory := "Whole Flower",
    name := "Sample", price := some 0, grams := some 1 }

/-- Concrete product with price 35.00 and 3.5 grams. -/
def pd35 : ProductData :=
  { store := "Trulieve Miami", subcategory := "Whole Flower",
    name := "Sample", price := some 35, grams := some (7/2) }

/-- C2, counterexample: the claim "price_per_gram equals
round(price / grams, 2) whenever both price and grams are present and
grams > 0 (including when the present price is 0)" is false: at
price = 0, grams = 1 the code leaves `price_per_g` absent, because the
Python truthiness test `if self.price` rejects a present zero price. -/
theorem calculate_price_per_g_zero_price_counterexample :
    ¬ (∀ p : ProductData, p.price_per_g = none →
        (calculate_price_per_g p).price_per_g =
          (match p.price, p.grams with
           | some pr, some g => if 0 < g then some (round2 (pr / g)) else none
           | _, _ => none)) := by
  intro h
  have h0 := h pdPriceZero rfl
  revert h0
  decide

/-- C2, amended: `price_per_g` is computed as `round2 (price / grams)`
exactly when price is present and nonzero and grams is present and
positive (Python truthiness makes a present zero price fall through);
in every other case it stays absent. -/
theorem calculate_price_per_g_spec (p : ProductData)
    (h : p.price_per_g = none) :
    (calculate_price_per_g p).price_per_g =
      (match p.price, p.grams with
       | some pr, some g =>
           if pr ≠ 0 ∧ 0 < g then some (round2 (pr / g)) else none
       | _, _ => none) := by
  unfold calculate_price_per_g
  match hp : p.price, hg : p.grams with
  | none, none => simpa using h
  | none, some g => simpa using h
  | some pr, none => simpa using h
  | some pr, some g =>
      by_cases hpr : pr = 0
      · subst hpr
        simpa using h
      · by_cases hgpos : 0 < g
        · have hgne : g ≠ 0 := ne_of_gt hgpos
          simp [hpr, hgne, hgpos]
        · have : ¬ (pr ≠ 0 ∧ g ≠ 0 ∧ 0 < g) := by
            intro hc
            exact hgpos hc.2.2
          simp [this, hpr, hgpos, h]

/-- C2, witness: at price 35.00 and 3.5 g the amended statement yields
price-per-gram 10.00. -/
theorem calculate_price_per_g_spec_witness :
    (calculate_price_per_g pd35).price_per_g = some 10 := by
  have h := calculate_price_per_g_spec pd35 rfl
  rw [h]
  norm_num [pd35, round2, roundHalfEven]

/-- Python `str.lower()` over the ASCII texts the scraper handles:
per-character lowercasing. -/
def strLower (s : String) : String := String.mk (s.toList.map Char.toLower)

/-- Embeds the `SIZE_MAP` dictionary lookup (`data_extractors.py:20-29`):
the fixed size vocabulary mapped to grams. -/
def sizeMapGet (s : String) : Option ℚ :=
  if s = "0.5g" then some (1/2)
  else if s = "1g" then some 1
  else if s = "2g" then some 2
  else if s = "3.5g" then some (7/2)
  else if s = "7g" then some 7
  else if s = "10g" then some 10
  else if s = "14g" then some 14
  else if s = "28g" then some 28
  else none

/-- Embeds `grams_from_size` (`data_extractors.py:32-44`):
`if not size_str: return None; return SIZE_MAP.get(size_str.lower())`.
Python truthiness on an optional string rejects both `None` and `""`. -/
def grams_from_size (s : Option String) : Option ℚ :=
  match s with
  | none => none
  | some str => if str = "" then none else sizeMapGet (strLower str)

/-- Nonempty inputs go straight to the lowercased table lookup. -/
theorem grams_from_size_lookup (s : String) (h : s ≠ "") :
    grams_from_size (some s) = sizeMapGet (strLower s) := by
  simp [grams_from_size, h]

/-- C8: every label whose lowercasing lies in the fixed vocabulary
{0.5g, 1g, 2g, 3.5g, 7g, 10g, 14g, 28g} maps to its exact grams value;
every string outside the vocabulary, the empty string, and the absent
input map to absent. -/
theorem grams_from_size_spec :
    (∀ s : String, strLower s = "0.5g" → grams_from_size (some s) = some (1/2)) ∧
    (∀ s : String, strLower s = "1g" → grams_from_size (some s) = some 1) ∧
    (∀ s : String, strLower s = "2g" → grams_from_size (some s) = some 2) ∧
    (∀ s : String, strLower s = "3.5g" → grams_from_size (some s) = some (7/2)) ∧
    (∀ s : String, strLower s = "7g" → grams_from_size (some s) = some 7) ∧
    (∀ s : String, strLower s = "10g" → grams_from_size (some s) = some 10) ∧
    (∀ s : String, strLower s = "14g" → grams_from_size (some s) = some 14) ∧
    (∀ s : String, strLower s = "28g" → grams_from_size (some s) = some 28) ∧
    (∀ s : String,
      strLower s ∉ (["0.5g", "1g", "2g", "3.5g", "7g", "10g", "14g", "28g"] : List String) →
      grams_from_size (some s) = none) ∧
    grams_from_size (some "") = none ∧
    grams_from_size none = none := by
  refine ⟨?_, ?_, ?_, ?_, ?_, ?_, ?_, ?_, ?_, by decide, rfl⟩
  case _ => intro s h
            have hs : s ≠ "" := by intro he; subst he; exact absurd h (by decide)
            rw [grams_from_size_lookup s hs, h]; simp [sizeMapGet]
  case _ => intro s h
            have hs : s ≠ "" := by intro he; subst he; exact absurd h (by decide)
            rw [grams_from_size_lookup s hs, h]; simp [sizeMapGet]
  case _ => intro s h
            have hs : s ≠ "" := by intro he; subst he; exact absurd h (by decide)
            rw [grams_from_size_lookup s hs, h]; simp [sizeMapGet]
  case _ => intro s h
            have hs : s ≠ "" := by intro he; subst he; exact absurd h (by decide)
            rw [grams_from_size_lookup s hs, h]; simp [sizeMapGet]
  case _ => intro s h
            have hs : s ≠ "" := by intro he; subst he; exact absurd h (by decide)
            rw [grams_from_size_lookup s hs, h]; simp [sizeMapGet]
  case _ => intro s h
            have hs : s ≠ "" := by intro he; subst he; exact absurd h (by decide)
            rw [grams_from_size_lookup s hs, h]; simp [sizeMapGet]
  case _ => intro s h
            have hs : s ≠ "" := by intro he; subst he; exact absurd h (by decide)
            rw [grams_from_size_lookup s hs, h]; simp [sizeMapGet]
  case _ => intro s h
            have hs : s ≠ "" := by intro he; subst he; exact absurd h (by decide)
            rw [grams_from_size_lookup s hs, h]; simp [sizeMapGet]
  case _ =>
    intro s h
    by_cases hs : s = ""
    · subst hs; rfl
    · rw [grams_from_size_lookup s hs]
      simp only [List.mem_cons, List.not_mem_nil, or_false, not_or] at h
      obtain ⟨h1, h2, h3, h4, h5, h6, h7, h8⟩ := h
      simp [sizeMapGet, h1, h2, h3, h4, h5, h6, h7, h8]

/-- C8, witness: "7G" maps to 7.0 case-insensitively and "bogus" maps
to absent. -/
theorem grams_from_size_spec_witness :
    grams_from_size (some "7G") = some 7 ∧
    grams_from_size (some "bogus") = none := by
  obtain ⟨h05, h1, h2, h35, h7, h10, h14, h28, hout, hemp, hnone⟩ := grams_from_size_spec
  exact ⟨h7 "7G" (by decide), hout "bogus" (by decide)⟩

/-- Python regex word character (`\w`) over the ASCII range the
scraped texts use: letter, digit or underscore. -/
def isWordChar (c : Char) : Bool := c.isAlphanum || c == '_'

/-- Python regex whitespace (`\s`): space, tab, newline, carriage
return, vertical tab, form feed. -/
def pySpace (c : Char) : Bool :=
  c == ' ' || c == '\t' || c == '\n' || c == '\r' || c == '\x0b' || c == '\x0c'

/-- Word boundary on the left of a match position whose first matched
character is a word character: start of text or a preceding non-word
character. -/
def boundaryBefore : Option Char → Bool
  | none => true
  | some c => !(isWordChar c)

/-- Word boundary on the right of a match whose last matched character
is a word character: end of text or a following non-word character. -/
def boundaryAfterOk : List Char → Bool
  | [] => true
  | c :: _ => !(isWordChar c)

/-- Case-insensitive literal prefix match: on success returns the
matched slice of the text (original case) and the rest. -/
def ciPrefix : List Char → List Char → Option (List Char × List Char)
  | [], cs => some ([], cs)
  | _ :: _, [] => none
  | w :: ws, c :: cs =>
      if c.toLower == w.toLower then
        match ciPrefix ws cs with
        | some (sl, r) => some (c :: sl, r)
        | none => none
      else none

/-- Whole-word case-insensitive literal match at the current position:
`\bw\b` anchored here, for a word whose first and last characters are
word characters (true of every literal the scraper's regexes use).
`prev` is the character just before the position. -/
def wordAt (prev : Option Char) (w : List Char) (cs : List Char) :
    Option (List Char × List Char) :=
  if boundaryBefore prev then
    match ciPrefix w cs with
    | some (sl, r) => if boundaryAfterOk r then some (sl, r) else none
    | none => none
  else none

/-- Left-to-right regex search for `\bw\b` followed by a tail matcher
`k` on the remaining text: at each position, if the whole word matches
and `k` accepts the rest, the match is returned; otherwise the search
moves one character right, exactly as the `re.search` scan does. -/
def scanFor {A : Type} (w : List Char) (k : List Char → Option A) :
    Option Char → List Char → Option A
  | _, [] => none
  | prev, c :: cs =>
      match wordAt prev w (c :: cs) with
      | some (_, r) =>
          match k r with
          | some v => some v
          | none => scanFor w k (some c) cs
      | none => scanFor w k (some c) cs

/-- Boolean `re.search(rf"\b{w}\b", text, re.I) is not None` for a
literal word `w`, as used by `extract_strain_type_from_text`. -/
def containsWholeWordCI (text w : String) : Bool :=
  (scanFor w.toList (fun _ => some ()) none text.toList).isSome

/-- When the bare word does not occur, no tail matcher can succeed. -/
theorem scanFor_eq_none {A : Type} (w : List Char) (k : List Char → Option A)
    (cs : List Char) (prev : Option Char)
    (h : scanFor w (fun _ => some ()) prev cs = none) :
    scanFor w k prev cs = none := by
  induction cs generalizing prev with
  | nil => rfl
  | cons c rest ih =>
      unfold scanFor at h ⊢
      match hw : wordAt prev w (c :: rest) with
      | some pr => rw [hw] at h; simp at h
      | none => rw [hw] at h; exact ih (some c) h

/-- Embeds `extract_strain_type_from_text` (`data_extractors.py:317-335`):
`if not text: return None`, then for each of "Indica", "Sativa",
"Hybrid" in that fixed order, `if re.search(rf"\b{strain}\b", text,
re.I): return strain`. -/
def extract_strain_type_from_text (text : String) : Option String :=
  if text = "" then none
  else if containsWholeWordCI text "Indica" then some "Indica"
  else if containsWholeWordCI text "Sativa" then some "Sativa"
  else if containsWholeWordCI text "Hybrid" then some "Hybrid"
  else none

/-- Helper for the spec-side reading: scan the text left to right and
report which of the three strain words occurs earliest by position. -/
def scanAnyStrain : Option Char → List Char → Option String
  | _, [] => none
  | prev, c :: cs =>
      if (wordAt prev "Indica".toList (c :: cs)).isSome then some "Indica"
      else if (wordAt prev "Sativa".toList (c :: cs)).isSome then some "Sativa"
      else if (wordAt prev "Hybrid".toList (c :: cs)).isSome then some "Hybrid"
      else scanAnyStrain (some c) cs

/-- Modelled from the spec's words (for comparison with the code):
"match the first occurrence of Indica/Sativa/Hybrid as a whole word
(case-insensitive)" read as first occurrence by position in the text. -/
def first_strain_by_position (text : String) : Option String :=
  scanAnyStrain none text.toList

/-- C5, counterexample: on "Sativa Indica" the code returns "Indica"
(the loop tries Indica first regardless of position), while the first
occurrence by position is "Sativa"; so extraction does not return the
positionally first strain word. -/
theorem extract_strain_type_first_position_counterexample :
    extract_strain_type_from_text "Sativa Indica" = some "Indica" ∧
    first_strain_by_position "Sativa Indica" = some "Sativa" ∧
    (some "Indica" : Option String) ≠ some "Sativa" := by
  refine ⟨by decide, by decide, by decide⟩

/-- C5, amended: extraction returns the first of Indica, Sativa,
Hybrid — in that fixed priority order, not by position in the text —
that occurs as a whole word case-insensitively, as the capitalized
literal; it is absent exactly when none of the three occurs. -/
theorem extract_strain_type_spec (text : String) :
    (extract_strain_type_from_text text = some "Indica" ↔
      containsWholeWordCI text "Indica" = true) ∧
    (extract_strain_type_from_text text = some "Sativa" ↔
      (containsWholeWordCI text "Indica" = false ∧
       containsWholeWordCI text "Sativa" = true)) ∧
    (extract_strain_type_from_text text = some "Hybrid" ↔
      (containsWholeWordCI text "Indica" = false ∧
       containsWholeWordCI text "Sativa" = false ∧
       containsWholeWordCI text "Hybrid" = true)) ∧
    (extract_strain_type_from_text text = none ↔
      (containsWholeWordCI text "Indica" = false ∧
       containsWholeWordCI text "Sativa" = false ∧
       containsWholeWordCI text "Hybrid" = false)) := by
  by_cases htext : text = ""
  · subst htext
    decide
  · unfold extract_strain_type_from_text
    cases hI : containsWholeWordCI text "Indica" <;>
    cases hS : containsWholeWordCI text "Sativa" <;>
    cases hH : containsWholeWordCI text "Hybrid" <;>
    simp [htext, hI, hS, hH]

/-- Alternatives of `SIZE_RE` (`data_extractors.py:15`) in the order the
regex alternation tries them. -/
def sizeVocab : List (List Char) :=
  ["0.5g".toList, "1g".toList, "2g".toList, "3.5g".toList,
   "7g".toList, "10g".toList, "14g".toList, "28g".toList]

/-- Regex alternation at one position: try each literal in order, with
the surrounding word boundaries, and return the matched slice of the
first alternative that fits. -/
def tryWords (prev : Option Char) (cs : List Char) :
    List (List Char) → Option (List Char)
  | [] => none
  | w :: ws =>
      match wordAt prev w cs with
      | some (sl, _) => some sl
      | none => tryWords prev cs ws

/-- Left-to-right search of `SIZE_RE`: at each position try the
alternation; on failure move one character right. -/
def scanSize : Option Char → List Char → Option (List Char)
  | _, [] => none
  | prev, c :: cs =>
      match tryWords prev (c :: cs) sizeVocab with
      | some sl => some sl
      | none => scanSize (some c) cs

/-- Embeds `extract_size_from_text` (`data_extractors.py:300-314`):
`if not text: return None; match = SIZE_RE.search(text); return
match.group(1).lower() if match else None`. -/
def extract_size_from_text (text : String) : Option String :=
  if text = "" then none
  else
    match scanSize none text.toList with
    | some sl => some (String.mk (sl.map Char.toLower))
    | none => none

/-- Embeds lines 442-443 of `extract_product_data_from_card`
(`data_extractors.py`): `size = extract_size_from_text(card_text);
grams = grams_from_size(size)` — the only way `size_raw` and `grams`
of an assembled record are produced. -/
def assembleSizeGrams (card_text : String) : Option String × Option ℚ :=
  (extract_size_from_text card_text,
   grams_from_size (extract_size_from_text card_text))

/-- Slices matched case-insensitively against a literal lowercase to
the literal's lowercasing. -/
theorem ciPrefix_toLower (w : List Char) :
    ∀ cs sl r, ciPrefix w cs = some (sl, r) →
      sl.map Char.toLower = w.map Char.toLower := by
  induction w with
  | nil =>
      intro cs sl r h
      unfold ciPrefix at h
      simp at h
      simp [h.1]
  | cons wc ws ih =>
      intro cs sl r h
      cases cs with
      | nil => simp [ciPrefix] at h
      | cons c cs' =>
          unfold ciPrefix at h
          by_cases hc : c.toLower == wc.toLower
          · rw [if_pos hc] at h
            match hp : ciPrefix ws cs' with
            | some (sl', r') =>
                rw [hp] at h
                simp at h
                obtain ⟨hsl, hr⟩ := h
                subst hsl
                simp [List.map_cons, ih cs' sl' r' hp, eq_of_beq hc]
            | none => rw [hp] at h; simp at h
          · rw [if_neg hc] at h; simp at h

/-- A successful whole-word match yields a slice lowercasing to the
word's lowercasing. -/
theorem wordAt_toLower (prev : Option Char) (w cs sl r : List Char)
    (h : wordAt prev w cs = some (sl, r)) :
    sl.map Char.toLower = w.map Char.toLower := by
  unfold wordAt at h
  by_cases hb : boundaryBefore prev
  · rw [if_pos hb] at h
    match hp : ciPrefix w cs with
    | some (sl', r') =>
        rw [hp] at h
        by_cases ha : boundaryAfterOk r'
        · simp [ha] at h
          obtain ⟨rfl, rfl⟩ := h
          exact ciPrefix_toLower w cs sl' r' hp
        · simp [ha] at h
    | none => rw [hp] at h; simp at h
  · rw [if_neg hb] at h; simp at h

/-- Alternation soundness: a returned slice comes from one of the
alternatives. -/
theorem tryWords_sound (prev : Option Char) (cs : List Char) :
    ∀ ws sl, tryWords prev cs ws = some sl →
      ∃ w ∈ ws, ∃ r, wordAt prev w cs = some (sl, r) := by
  intro ws
  induction ws with
  | nil => intro sl h; simp [tryWords] at h
  | cons w ws' ih =>
      intro sl h
      unfold tryWords at h
      match hw : wordAt prev w cs with
      | some (sl', r') =>
          rw [hw] at h
          simp at h
          subst h
          exact ⟨w, by simp, r', hw⟩
      | none =>
          rw [hw] at h
          obtain ⟨w', hw', r', hr'⟩ := ih sl h
          exact ⟨w', by simp [hw'], r', hr'⟩

/-- Scan soundness: a slice found anywhere in the text comes from one
of the alternatives. -/
theorem scanSize_sound (cs : List Char) :
    ∀ prev sl, scanSize prev cs = some sl →
      ∃ w ∈ sizeVocab, sl.map Char.toLower = w.map Char.toLower := by
  induction cs with
  | nil => intro prev sl h; simp [scanSize] at h
  | cons c cs' ih =>
      intro prev sl h
      unfold scanSize at h
      match ht : tryWords prev (c :: cs') sizeVocab with
      | some sl' =>
          rw [ht] at h
          simp at h
          subst h
          obtain ⟨w, hwmem, r, hr⟩ := tryWords_sound prev (c :: cs') sizeVocab sl' ht
          exact ⟨w, hwmem, wordAt_toLower prev w (c :: cs') sl' r hr⟩
      | none =>
          rw [ht] at h
          exact ih (some c) sl h

/-- Any size string the extractor returns is one of the eight
lowercase vocabulary labels. -/
theorem extract_size_vocab (text : String) (s : String)
    (hs : extract_size_from_text text = some s) :
    s ∈ (["0.5g", "1g", "2g", "3.5g", "7g", "10g", "14g", "28g"] : List String) := by
  unfold extract_size_from_text at hs
  by_cases htext : text = ""
  · simp [htext] at hs
  · rw [if_neg htext] at hs
    match hscan : scanSize none text.toList with
    | some sl =>
        rw [hscan] at hs
        simp at hs
        obtain ⟨w, hwmem, hmap⟩ := scanSize_sound text.toList none sl hscan
        subst hs
        fin_cases hwmem <;> rw [hmap] <;> decide
    | none => rw [hscan] at hs; simp at hs

/-- C10: when size extraction succeeds, the returned string is
lowercase, belongs to the fixed vocabulary, and maps to a positive
grams value; hence in the assembled (size_raw, grams) pair of
`extract_product_data_from_card`, grams is present exactly when
size_raw is present. -/
theorem extract_size_grams_spec (text : String) :
    (∀ s : String, extract_size_from_text text = some s →
      s ∈ (["0.5g", "1g", "2g", "3.5g", "7g", "10g", "14g", "28g"] : List String) ∧
      strLower s = s ∧
      ∃ g : ℚ, grams_from_size (some s) = some g ∧ 0 < g) ∧
    ((assembleSizeGrams text).2.isSome ↔ (assembleSizeGrams text).1.isSome) := by
  have main : ∀ s : String, extract_size_from_text text = some s →
      s ∈ (["0.5g", "1g", "2g", "3.5g", "7g", "10g", "14g", "28g"] : List String) ∧
      strLower s = s ∧
      ∃ g : ℚ, grams_from_size (some s) = some g ∧ 0 < g := by
    intro s hs
    have hmem := extract_size_vocab text s hs
    refine ⟨hmem, ?_, ?_⟩
    · fin_cases hmem <;> decide
    · fin_cases hmem
      · exact ⟨1/2, by rfl, by norm_num⟩
      · exact ⟨1, by rfl, by norm_num⟩
      · exact ⟨2, by rfl, by norm_num⟩
      · exact ⟨7/2, by rfl, by norm_num⟩
      · exact ⟨7, by rfl, by norm_num⟩
      · exact ⟨10, by rfl, by norm_num⟩
      · exact ⟨14, by rfl, by norm_num⟩
      · exact ⟨28, by rfl, by norm_num⟩
  refine ⟨main, ?_⟩
  match hx : extract_size_from_text text with
  | none => simp [assembleSizeGrams, hx, grams_from_size]
  | some s =>
      obtain ⟨hmem, hlow, g, hg, hgpos⟩ := main s hx
      simp [assembleSizeGrams, hx, hg]

/-- C10, witness: on a concrete card text the extractor returns
"3.5g", which is in the vocabulary, lowercase, and maps to 3.5 g. -/
theorem extract_size_grams_spec_witness :
    extract_size_from_text "Whole Flower 3.5G" = some "3.5g" ∧
    ("3.5g" ∈ (["0.5g", "1g", "2g", "3.5g", "7g", "10g", "14g", "28g"] : List String) ∧
     strLower "3.5g" = "3.5g" ∧
     ∃ g : ℚ, grams_from_size (some "3.5g") = some g ∧ 0 < g) := by
  refine ⟨by decide, (extract_size_grams_spec "Whole Flower 3.5G").1 "3.5g" (by decide)⟩

/-- Decimal digit run to its numeric value. -/
def digitsToNat (ds : List Char) : ℕ :=
  ds.foldl (fun n c => 10 * n + (c.toNat - 48)) 0

/-- Captured groups of `PRICE_RE.finditer` (`data_extractors.py:14`,
pattern `\$\s*([0-9]+(?:\.[0-9]{2})?)`) over a text: after a literal
dollar sign, skip whitespace, take a maximal digit run, then take
`.dd` when exactly two digits follow a dot.  The regex is such that no
backtracking can change this greedy outcome.  The recursion resumes
just after the dollar sign rather than after the match; this is
equivalent to `finditer`'s resume-at-match-end because a match never
contains a second dollar sign. -/
def priceGroups : List Char → List (List Char)
  | [] => []
  | c :: rest =>
      if c = '$' then
        let afterSp := rest.dropWhile pySpace
        let ds := afterSp.takeWhile Char.isDigit
        if ds.isEmpty then priceGroups rest
        else
          let g :=
            match afterSp.drop ds.length with
            | '.' :: d1 :: d2 :: _ =>
                if d1.isDigit && d2.isDigit then ds ++ ['.', d1, d2] else ds
            | _ => ds
          g :: priceGroups rest
      else priceGroups rest

/-- Python `float(...)` on a captured price group (digits, optionally
followed by a dot and two digits): its exact decimal value. -/
def pyFloat (g : List Char) : ℚ :=
  let ip := g.takeWhile Char.isDigit
  match g.drop ip.length with
  | '.' :: ds => (digitsToNat ip : ℚ) + (digitsToNat ds : ℚ) / (10 ^ ds.length : ℚ)
  | _ => (digitsToNat ip : ℚ)

/-- Python `min(prices) if prices else None` over a float list. -/
def listMin : List ℚ → Option ℚ
  | [] => none
  | x :: xs => some (xs.foldl min x)

/-- Embeds the regex-and-minimum stage of `extract_price_from_card`
(`data_extractors.py:124-136`): run `PRICE_RE.finditer` over the
harvested text blob, convert each group with `float`, and return the
minimum if any price was found.  The DOM harvesting that produces the
blob is abstracted into the `blob` argument. -/
def extract_price_from_card_text (blob : String) : Option ℚ :=
  listMin ((priceGroups blob.toList).map pyFloat)

/-- A left fold of `min` lands on the seed or in the list. -/
theorem foldlMin_mem (xs : List ℚ) :
    ∀ x : ℚ, xs.foldl min x = x ∨ xs.foldl min x ∈ xs := by
  induction xs with
  | nil => intro x; exact Or.inl rfl
  | cons a xs ih =>
      intro x
      rw [List.foldl_cons]
      rcases ih (min x a) with h | h
      · rcases min_choice x a with hm | hm
        · exact Or.inl (h.trans hm)
        · exact Or.inr (by rw [h, hm]; exact List.mem_cons_self a xs)
      · exact Or.inr (List.mem_cons_of_mem a h)

/-- A left fold of `min` is a lower bound of the seed and the list. -/
theorem foldlMin_le (xs : List ℚ) :
    ∀ x y : ℚ, (y = x ∨ y ∈ xs) → xs.foldl min x ≤ y := by
  induction xs with
  | nil =>
      intro x y h
      rcases h with rfl | h
      · exact le_refl y
      · simp at h
  | cons a xs ih =>
      intro x y h
      rw [List.foldl_cons]
      have hbase : xs.foldl min (min x a) ≤ min x a :=
        ih (min x a) (min x a) (Or.inl rfl)
      rcases h with rfl | h
      · exact hbase.trans (min_le_left _ _)
      · rcases List.mem_cons.mp h with rfl | h'
        · exact hbase.trans (min_le_right _ _)
        · exact ih (min x a) y (Or.inr h')

/-- C6: price extraction over a text blob returns the minimum of all
values matched by the dollar-amount pattern — the result is one of the
matched values and is a lower bound for all of them — and is absent
exactly when no token matches. -/
theorem extract_price_spec (blob : String) :
    (extract_price_from_card_text blob = none ↔ priceGroups blob.toList = []) ∧
    (∀ q : ℚ, extract_price_from_card_text blob = some q →
      q ∈ (priceGroups blob.toList).map pyFloat ∧
      ∀ p ∈ (priceGroups blob.toList).map pyFloat, q ≤ p) := by
  unfold extract_price_from_card_text
  match hg : priceGroups blob.toList with
  | [] => simp [listMin]
  | g :: gs =>
      constructor
      · simp [listMin]
      · intro q hq
        have hq' : (gs.map pyFloat).foldl min (pyFloat g) = q := by
          simpa [listMin] using hq
        refine ⟨?_, ?_⟩
        · rw [← hq']
          rcases foldlMin_mem (gs.map pyFloat) (pyFloat g) with h | h
          · rw [h]; exact List.mem_cons_self _ _
          · exact List.mem_cons_of_mem _ h
        · intro p hp
          rw [← hq']
          rcases List.mem_cons.mp hp with rfl | hp'
          · exact foldlMin_le _ _ _ (Or.inl rfl)
          · exact foldlMin_le _ _ _ (Or.inr hp')

/-- C6, witness: "was $30.00 now $25.50" yields two matches, 30.00 and
25.50, and extraction returns the minimum 25.50. -/
theorem extract_price_spec_witness :
    extract_price_from_card_text "was $30.00 now $25.50" = some (51/2) ∧
    (51/2 : ℚ) ∈ (priceGroups "was $30.00 now $25.50".toList).map pyFloat ∧
    ∀ p ∈ (priceGroups "was $30.00 now $25.50".toList).map pyFloat,
      (51/2 : ℚ) ≤ p := by
  have hg : priceGroups "was $30.00 now $25.50".toList =
      ["30.00".toList, "25.50".toList] := by decide
  have h30 : pyFloat "30.00".toList = 30 := by
    have h1 : "30.00".toList.takeWhile Char.isDigit = ['3', '0'] := by decide
    have h2 : digitsToNat ['3', '0'] = 30 := by decide
    have h3 : digitsToNat ['0', '0'] = 0 := by decide
    simp only [pyFloat, h1, List.length_cons, List.length_nil,
      List.drop_succ_cons, List.drop_zero]
    norm_num [h2, h3]
  have h2550 : pyFloat "25.50".toList = 51/2 := by
    have h1 : "25.50".toList.takeWhile Char.isDigit = ['2', '5'] := by decide
    have h2 : digitsToNat ['2', '5'] = 25 := by decide
    have h3 : digitsToNat ['5', '0'] = 50 := by decide
    simp only [pyFloat, h1, List.length_cons, List.length_nil,
      List.drop_succ_cons, List.drop_zero]
    norm_num [h2, h3]
  have hmin : extract_price_from_card_text "was $30.00 now $25.50" = some (51/2) := by
    unfold extract_price_from_card_text
    rw [hg]
    simp only [List.map_cons, List.map_nil, listMin, List.foldl_cons, List.foldl_nil,
      h30, h2550]
    norm_num [min_def]
  exact ⟨hmin, ((extract_price_spec _).2 _ hmin).1, ((extract_price_spec _).2 _ hmin).2⟩

/-- Greedy `([0-9]+(?:\.[0-9]+)?)` at the head of the text: returns
the captured group and the rest.  The regex engine can commit to the
maximal runs here: giving digits back always leaves a digit where the
following `\s*%` (or `\.`) would have to match, so no backtracking
into this token can ever succeed. -/
def numberToken (cs : List Char) : Option (List Char × List Char) :=
  let ds := cs.takeWhile Char.isDigit
  if ds.isEmpty then none
  else
    match cs.drop ds.length with
    | '.' :: rest' =>
        let fs := rest'.takeWhile Char.isDigit
        if fs.isEmpty then some (ds, '.' :: rest')
        else some (ds ++ '.' :: fs, rest'.drop fs.length)
    | rest2 => some (ds, rest2)

/-- Greedy `\s*%`: skip whitespace, require a percent sign. -/
def expectPercent (cs : List Char) : Option (List Char) :=
  match cs.dropWhile pySpace with
  | '%' :: rest => some rest
  | _ => none

/-- Tail of `THC_RANGE_RE` (`data_extractors.py:17`) after `\bTHC\b`:
`[^0-9]*(num)\s*%[^0-9]+(num)\s*%`; returns the first captured group.
The `[^0-9]` classes cannot cross digits, so each step is forced. -/
def thcTailRange (cs : List Char) : Option (List Char) :=
  match numberToken (cs.dropWhile (fun c => !c.isDigit)) with
  | none => none
  | some (g1, r1) =>
      match expectPercent r1 with
      | none => none
      | some r2 =>
          match r2 with
          | [] => none
          | c :: _ =>
              if c.isDigit then none
              else
                match numberToken (r2.dropWhile (fun c => !c.isDigit)) with
                | none => none
                | some (_, r4) =>
                    match expectPercent r4 with
                    | none => none
                    | some _ => some g1

/-- Tail of `THC_SINGLE_RE` (`data_extractors.py:16`) after `\bTHC\b`:
`[^0-9]*(num)\s*%`; returns the captured group. -/
def thcTailSingle (cs : List Char) : Option (List Char) :=
  match numberToken (cs.dropWhile (fun c => !c.isDigit)) with
  | none => none
  | some (g1, r1) =>
      match expectPercent r1 with
      | none => none
      | some _ => some g1

/-- `THC_RANGE_RE.search(text)`: first whole-word THC occurrence whose
tail matches the range pattern; yields group 1. -/
def thcRangeGroup (text : String) : Option (List Char) :=
  scanFor "THC".toList thcTailRange none text.toList

/-- `THC_SINGLE_RE.search(text)`: first whole-word THC occurrence whose
tail matches the single-value pattern; yields group 1. -/
def thcSingleGroup (text : String) : Option (List Char) :=
  scanFor "THC".toList thcTailSingle none text.toList

/-- Embeds `extract_thc_from_text` (`data_extractors.py:370-399`):
empty text yields None; otherwise the range pattern is tried first and
its group 1 converted with `float`; otherwise the single-value
pattern.  The `except ValueError` around `float` is dead — a captured
group always parses — and is dropped. -/
def extract_thc_from_text (text : String) : Option ℚ :=
  if text = "" then none
  else
    match thcRangeGroup text with
    | some g => some (pyFloat g)
    | none => (thcSingleGroup text).map pyFloat

/-- C7: the range pattern is tried before the single-value pattern,
and a range match yields its first captured value (the value before
the dash — never the average or the upper bound, which are not even
computed); when the word THC does not occur, the result is absent. -/
theorem extract_thc_spec (text : String) :
    (∀ g : List Char, thcRangeGroup text = some g →
      extract_thc_from_text text = some (pyFloat g)) ∧
    (thcRangeGroup text = none →
      extract_thc_from_text text = (thcSingleGroup text).map pyFloat) ∧
    (containsWholeWordCI text "THC" = false →
      extract_thc_from_text text = none) := by
  refine ⟨?_, ?_, ?_⟩
  · intro g hg
    have htext : text ≠ "" := by
      intro he
      subst he
      simp [thcRangeGroup, scanFor] at hg
    simp [extract_thc_from_text, htext, hg]
  · intro hn
    by_cases htext : text = ""
    · subst htext; rfl
    · simp [extract_thc_from_text, htext, hn]
  · intro hc
    have hc' : scanFor "THC".toList (fun _ => some ()) none text.toList = none := by
      simp [containsWholeWordCI] at hc
      exact hc
    have hr : thcRangeGroup text = none :=
      scanFor_eq_none "THC".toList thcTailRange text.toList none hc'
    have hs : thcSingleGroup text = none :=
      scanFor_eq_none "THC".toList thcTailSingle text.toList none hc'
    by_cases htext : text = ""
    · subst htext; rfl
    · simp [extract_thc_from_text, htext, hr, hs]

/-- C7, witness: "THC: 18.5% - 22.0%" matches the range pattern and
yields the lower bound 18.5; "THC 15%" matches only the single-value
pattern and yields 15; text without a THC mention yields absent. -/
theorem extract_thc_spec_witness :
    extract_thc_from_text "THC: 18.5% - 22.0%" = some (37/2) ∧
    extract_thc_from_text "THC 15%" = some 15 ∧
    extract_thc_from_text "Relaxing gummies, fruit mix" = none := by
  have hr : thcRangeGroup "THC: 18.5% - 22.0%" = some "18.5".toList := by decide
  have hv185 : pyFloat "18.5".toList = 37/2 := by
    have h1 : "18.5".toList.takeWhile Char.isDigit = ['1', '8'] := by decide
    have h2 : digitsToNat ['1', '8'] = 18 := by decide
    have h3 : digitsToNat ['5'] = 5 := by decide
    simp only [pyFloat, h1, List.length_cons, List.length_nil,
      List.drop_succ_cons, List.drop_zero]
    norm_num [h2, h3]
  have hr2 : thcRangeGroup "THC 15%" = none := by decide
  have hs2 : thcSingleGroup "THC 15%" = some "15".toList := by decide
  have hv15 : pyFloat ['1', '5'] = 15 := by
    have h1 : (['1', '5'] : List Char).takeWhile Char.isDigit = ['1', '5'] := by decide
    have h2 : digitsToNat ['1', '5'] = 15 := by decide
    simp only [pyFloat, h1, List.length_cons, List.length_nil,
      List.drop_succ_cons, List.drop_zero]
    norm_num [h2]
  have hno : containsWholeWordCI "Relaxing gummies, fruit mix" "THC" = false := by decide
  refine ⟨?_, ?_, ?_⟩
  · rw [(extract_thc_spec _).1 "18.5".toList hr, hv185]
  · rw [(extract_thc_spec _).2.1 hr2, hs2]
    simp [hv15]
  · exact (extract_thc_spec _).2.2 hno

/-- Text after the first occurrence of a pattern, Python
`s.split(pat, 1)[1]`; absent when the pattern does not occur
(Python raises IndexError there). -/
def afterFirst (pat : List Char) : List Char → Option (List Char)
  | [] => if pat.isEmpty then some [] else none
  | c :: rest =>
      if pat.isPrefixOf (c :: rest) then some ((c :: rest).drop pat.length)
      else afterFirst pat rest

/-- Python `s.split(ch, 1)[0]`: everything before the first `ch`. -/
def takeUntilChar (stop : Char) (cs : List Char) : List Char :=
  cs.takeWhile (fun c => c ≠ stop)

/-- Python `s.strip("/")`: remove leading and trailing slashes. -/
def stripSlashes (cs : List Char) : List Char :=
  ((cs.dropWhile (fun c => c = '/')).reverse.dropWhile (fun c => c = '/')).reverse

/-- Embeds `product_slug` (`data_extractors.py:70-86`): take the part
of the URL after "/product/", cut at the first "?" and "#", strip
slashes; when "/product/" is absent (the IndexError path) or the href
is missing, fall back to `href or ""`. -/
def product_slug (href : Option String) : String :=
  match href with
  | none => ""
  | some h =>
      match afterFirst "/product/".toList h.toList with
      | some tail =>
          String.mk (stripSlashes (takeUntilChar '#' (takeUntilChar '?' tail)))
      | none => h

/-- One product link of a category page, as the dedup loop of
`TrulieveScraper.scrape_category` sees it: the href of the name link
and the outcome of `extract_product_data_from_card` (None both for a
card without a name and for a link whose processing raised and was
skipped). -/
structure LinkData where
  href : Option String
  product : Option ProductData
deriving Repr, DecidableEq

/-- Composite dedup key (store name, product slug, size, category). -/
def DedupKey : Type := String × String × Option String × String
deriving instance DecidableEq for DedupKey

/-- Key and product contributed by one link, `scrape_category` lines
210-214: key = (store.name, product_slug(href), product.size_raw,
category subcategory). -/
def linkKey (store subcat : String) (l : LinkData) :
    Option (DedupKey × ProductData) :=
  match l.product with
  | none => none
  | some p => some ((store, product_slug l.href, p.size_raw, subcat), p)

/-- Dedup loop of `scrape_category` (`trulieve_scraper.py:190-226`),
instrumented to keep each appended product's key next to it: links are
processed in order, a link with no product is skipped, a key already
in `seen_keys` is skipped, otherwise the key is added and the product
appended. -/
def goKeyed (seen : List DedupKey) :
    List (Option (DedupKey × ProductData)) → List (DedupKey × ProductData)
  | [] => []
  | none :: rest => goKeyed seen rest
  | some (k, p) :: rest =>
      if k ∈ seen then goKeyed seen rest
      else (k, p) :: goKeyed (k :: seen) rest

/-- The product list `scrape_category` returns for one category: the
dedup loop output without the instrumentation keys. -/
def scrape_category_dedup (store subcat : String) (links : List LinkData) :
    List ProductData :=
  (goKeyed [] (links.map (linkKey store subcat))).map Prod.snd

/-- Links with every later duplicate of an earlier key removed. -/
def keepFirstLinks (store subcat : String) :
    List LinkData → List DedupKey → List LinkData
  | [], _ => []
  | l :: rest, seen =>
      match linkKey store subcat l with
      | none => l :: keepFirstLinks store subcat rest seen
      | some (k, _) =>
          if k ∈ seen then keepFirstLinks store subcat rest seen
          else l :: keepFirstLinks store subcat rest (k :: seen)

/-- First entry with a given key among the per-link contributions. -/
def firstWithKey (k : DedupKey) (xs : List (Option (DedupKey × ProductData))) :
    Option (DedupKey × ProductData) :=
  xs.findSome? (fun o =>
    match o with
    | some e => if e.1 = k then some e else none
    | none => none)

/-- No emitted entry carries a key that was already seen. -/
theorem goKeyed_not_seen (xs : List (Option (DedupKey × ProductData))) :
    ∀ seen e, e ∈ goKeyed seen xs → e.1 ∉ seen := by
  induction xs with
  | nil => intro seen e he; simp [goKeyed] at he
  | cons o rest ih =>
      intro seen e he
      match o with
      | none => exact ih seen e he
      | some (k, p) =>
          by_cases hk : k ∈ seen
          · rw [goKeyed, if_pos hk] at he
            exact ih seen e he
          · rw [goKeyed, if_neg hk] at he
            rcases List.mem_cons.mp he with rfl | he'
            · exact hk
            · intro hseen
              exact ih (k :: seen) e he' (List.mem_cons_of_mem k hseen)

/-- The emitted keys are pairwise distinct. -/
theorem goKeyed_nodup (xs : List (Option (DedupKey × ProductData))) :
    ∀ seen, ((goKeyed seen xs).map Prod.fst).Nodup := by
  induction xs with
  | nil => intro seen; simp [goKeyed]
  | cons o rest ih =>
      intro seen
      match o with
      | none => exact ih seen
      | some (k, p) =>
          by_cases hk : k ∈ seen
          · rw [goKeyed, if_pos hk]
            exact ih seen
          · rw [goKeyed, if_neg hk]
            rw [List.map_cons, List.nodup_cons]
            refine ⟨?_, ih (k :: seen)⟩
            intro hmem
            obtain ⟨e, he, hek⟩ := List.mem_map.mp hmem
            have := goKeyed_not_seen rest (k :: seen) e he
            rw [hek] at this
            exact this (List.mem_cons_self k seen)

/-- A key appears among the emitted keys exactly when it was not
already seen and some link contributes it. -/
theorem goKeyed_mem_key (xs : List (Option (DedupKey × ProductData))) :
    ∀ seen k, (k ∈ (goKeyed seen xs).map Prod.fst) ↔
      (k ∉ seen ∧ ∃ p, some (k, p) ∈ xs) := by
  induction xs with
  | nil => intro seen k; simp [goKeyed]
  | cons o rest ih =>
      intro seen k
      match o with
      | none =>
          rw [show goKeyed seen (none :: rest) = goKeyed seen rest from rfl, ih seen k]
          simp
      | some (k', p') =>
          by_cases hk : k' ∈ seen
          · rw [show goKeyed seen (some (k', p') :: rest) =
                if k' ∈ seen then goKeyed seen rest
                else (k', p') :: goKeyed (k' :: seen) rest from rfl,
              if_pos hk, ih seen k]
            constructor
            · rintro ⟨hns, p, hp⟩
              exact ⟨hns, p, List.mem_cons_of_mem _ hp⟩
            · rintro ⟨hns, p, hp⟩
              rcases List.mem_cons.mp hp with heq | hp'
              · simp at heq
                obtain ⟨rfl, rfl⟩ := heq
                exact absurd hk hns
              · exact ⟨hns, p, hp'⟩
          · rw [show goKeyed seen (some (k', p') :: rest) =
                if k' ∈ seen then goKeyed seen rest
                else (k', p') :: goKeyed (k' :: seen) rest from rfl,
              if_neg hk, List.map_cons]
            constructor
            · intro hm
              rcases List.mem_cons.mp hm with rfl | hm'
              · exact ⟨hk, p', List.mem_cons_self _ _⟩
              · obtain ⟨hns, p, hp⟩ := (ih (k' :: seen) k).mp hm'
                exact ⟨fun h => hns (List.mem_cons_of_mem _ h), p,
                  List.mem_cons_of_mem _ hp⟩
            · rintro ⟨hns, p, hp⟩
              rcases List.mem_cons.mp hp with heq | hp'
              · simp at heq
                obtain ⟨rfl, rfl⟩ := heq
                exact List.mem_cons_self _ _
              · by_cases hkk : k = k'
                · subst hkk
                  exact List.mem_cons_self _ _
                · refine List.mem_cons_of_mem _ ((ih (k' :: seen) k).mpr ⟨?_, p, hp'⟩)
                  intro h
                  rcases List.mem_cons.mp h with h' | h'
                  · exact hkk h'
                  · exact hns h'

/-- First occurrence wins: the emitted entry with a given key is the
first link contribution carrying that key. -/
theorem goKeyed_find (xs : List (Option (DedupKey × ProductData))) :
    ∀ seen k, k ∉ seen →
      (goKeyed seen xs).find? (fun e => decide (e.1 = k)) = firstWithKey k xs := by
  induction xs with
  | nil => intro seen k _; simp [goKeyed, firstWithKey]
  | cons o rest ih =>
      intro seen k hk
      match o with
      | none =>
          rw [show goKeyed seen (none :: rest) = goKeyed seen rest from rfl,
            ih seen k hk]
          simp [firstWithKey]
      | some (k', p') =>
          by_cases hk' : k' ∈ seen
          · rw [show goKeyed seen (some (k', p') :: rest) =
                if k' ∈ seen then goKeyed seen rest
                else (k', p') :: goKeyed (k' :: seen) rest from rfl,
              if_pos hk', ih seen k hk]
            have hkk : ¬ (k' = k) := fun h => hk (h ▸ hk')
            simp [firstWithKey, hkk]
          · rw [show goKeyed seen (some (k', p') :: rest) =
                if k' ∈ seen then goKeyed seen rest
                else (k', p') :: goKeyed (k' :: seen) rest from rfl,
              if_neg hk']
            by_cases hkk : k' = k
            · subst hkk
              simp [firstWithKey]
            · have hk2 : k ∉ k' :: seen := by
                intro h
                rcases List.mem_cons.mp h with h' | h'
                · exact hkk h'.symm
                · exact hk h'
              rw [List.find?_cons_of_neg _ (by simpa using hkk), ih (k' :: seen) k hk2]
              simp [firstWithKey, hkk]

/-- Removing later duplicate-key links does not change the loop
output. -/
theorem goKeyed_keepFirst (store subcat : String) (ls : List LinkData) :
    ∀ seen, goKeyed seen (ls.map (linkKey store subcat)) =
      goKeyed seen ((keepFirstLinks store subcat ls seen).map (linkKey store subcat)) := by
  induction ls with
  | nil => intro seen; rfl
  | cons l rest ih =>
      intro seen
      rw [List.map_cons]
      match hl : linkKey store subcat l with
      | none =>
          rw [show goKeyed seen (none :: rest.map (linkKey store subcat)) =
              goKeyed seen (rest.map (linkKey store subcat)) from rfl,
            keepFirstLinks, hl, List.map_cons, hl,
            show goKeyed seen (none :: (keepFirstLinks store subcat rest seen).map
              (linkKey store subcat)) =
              goKeyed seen ((keepFirstLinks store subcat rest seen).map
                (linkKey store subcat)) from rfl]
          exact ih seen
      | some (k, p) =>
          by_cases hk : k ∈ seen
          · rw [show goKeyed seen (some (k, p) :: rest.map (linkKey store subcat)) =
                if k ∈ seen then goKeyed seen (rest.map (linkKey store subcat))
                else (k, p) :: goKeyed (k :: seen) (rest.map (linkKey store subcat))
                from rfl,
              if_pos hk, keepFirstLinks, hl]
            simp only [if_pos hk]
            exact ih seen
          · rw [show goKeyed seen (some (k, p) :: rest.map (linkKey store subcat)) =
                if k ∈ seen then goKeyed seen (rest.map (linkKey store subcat))
                else (k, p) :: goKeyed (k :: seen) (rest.map (linkKey store subcat))
                from rfl,
              if_neg hk, keepFirstLinks, hl]
            simp only [if_neg hk]
            rw [List.map_cons, hl,
              show goKeyed seen (some (k, p) ::
                (keepFirstLinks store subcat rest (k :: seen)).map (linkKey store subcat)) =
                if k ∈ seen then goKeyed seen ((keepFirstLinks store subcat rest
                  (k :: seen)).map (linkKey store subcat))
                else (k, p) :: goKeyed (k :: seen) ((keepFirstLinks store subcat rest
                  (k :: seen)).map (linkKey store subcat)) from rfl,
              if_neg hk]
            rw [ih (k :: seen)]

/-- C9: within one category scrape, the dedup loop emits pairwise
distinct keys; any key contributed by some link appears exactly once;
the entry kept for a key is the first link contribution with that key;
and processing a link list equals processing the list with later
duplicate-key links removed. -/
theorem scrape_category_dedup_spec (store subcat : String) (links : List LinkData) :
    ((goKeyed [] (links.map (linkKey store subcat))).map Prod.fst).Nodup ∧
    (∀ k : DedupKey,
      (∃ l ∈ links, ∃ p, linkKey store subcat l = some (k, p)) →
      ((goKeyed [] (links.map (linkKey store subcat))).map Prod.fst).count k = 1) ∧
    (∀ k : DedupKey,
      (goKeyed [] (links.map (linkKey store subcat))).find?
          (fun e => decide (e.1 = k)) =
        firstWithKey k (links.map (linkKey store subcat))) ∧
    scrape_category_dedup store subcat links =
      scrape_category_dedup store subcat (keepFirstLinks store subcat links []) := by
  refine ⟨goKeyed_nodup _ [], ?_, ?_, ?_⟩
  · rintro k ⟨l, hl, p, hp⟩
    have hmem : k ∈ (goKeyed [] (links.map (linkKey store subcat))).map Prod.fst := by
      rw [goKeyed_mem_key]
      exact ⟨by simp, p, List.mem_map.mpr ⟨l, hl, hp⟩⟩
    exact List.count_eq_one_of_mem (goKeyed_nodup _ []) hmem
  · intro k
    exact goKeyed_find _ [] k (by simp)
  · unfold scrape_category_dedup
    rw [goKeyed_keepFirst store subcat links []]

/-- Concrete product for the dedup witness. -/
def pdA : ProductData :=
  { store := "Trulieve Miami", subcategory := "Whole Flower",
    name := "Blue Dream", size_raw := some "3.5g" }

/-- A second concrete product, a duplicate card of the same listing. -/
def pdB : ProductData :=
  { store := "Trulieve Miami", subcategory := "Whole Flower",
    name := "Blue Dream duplicate card", size_raw := some "3.5g" }

/-- Two links whose extracted products share the same dedup key. -/
def dupLinks : List LinkData :=
  [{ href := some "https://www.trulieve.com/product/blue-dream-3-5g?weight=eighth",
     product := some pdA },
   { href := some "https://www.trulieve.com/product/blue-dream-3-5g?weight=eighth",
     product := some pdB }]

/-- The shared composite key of the two duplicate links. -/
def dupKey : DedupKey :=
  ("Trulieve Miami", "blue-dream-3-5g", some "3.5g", "Whole Flower")

/-- C9, witness: on two links with an identical key, exactly one
record with that key is emitted, and it is the first one. -/
theorem scrape_category_dedup_spec_witness :
    ((goKeyed [] (dupLinks.map (linkKey "Trulieve Miami" "Whole Flower"))).map
      Prod.fst).count dupKey = 1 ∧
    scrape_category_dedup "Trulieve Miami" "Whole Flower" dupLinks = [pdA] := by
  refine ⟨(scrape_category_dedup_spec "Trulieve Miami" "Whole Flower" dupLinks).2.1
    dupKey ⟨dupLinks.head (by decide), by decide, pdA, by decide⟩, by decide⟩

/-- Embeds `BaseScraper._retry_operation` (`base_scraper.py:70-100`):
`for attempt in range(max_retries + 1): try: return await operation()
except: last = e; if attempt < max_retries: sleep(delay * 2**attempt);
raise last`.  The operation is modelled as its outcome per attempt
index; the result is paired with the list of back-off sleep durations,
and the fuel argument counts the attempts remaining after the current
one.  The exception finally raised is the final attempt's error. -/
def retryGo {E A : Type} (op : ℕ → Except E A) (delay : ℚ) :
    ℕ → ℕ → Except E A × List ℚ
  | attempt, 0 => (op attempt, [])
  | attempt, rest + 1 =>
      match op attempt with
      | Except.ok a => (Except.ok a, [])
      | Except.error _ =>
          let r := retryGo op delay (attempt + 1) rest
          (r.1, delay * 2 ^ attempt :: r.2)

/-- `_retry_operation(operation, max_retries, delay)` from attempt 0. -/
def retry_operation {E A : Type} (op : ℕ → Except E A)
    (maxRetries : ℕ) (delay : ℚ) : Except E A × List ℚ :=
  retryGo op delay 0 maxRetries

/-- Embeds `BaseScraper._safe_page_goto` (`base_scraper.py:102-123`):
the navigation is wrapped in `_retry_operation` with its defaults
`max_retries=3, delay=1.0`; on failure the except clauses log and
re-raise the error unchanged. -/
def safe_page_goto {E A : Type} (op : ℕ → Except E A) : Except E A × List ℚ :=
  retry_operation op 3 1

/-- Operation that fails on its first three attempts and succeeds on
the fourth. -/
def opFailsThrice (n : ℕ) : Except String Unit :=
  if n < 3 then Except.error "timeout" else Except.ok ()

/-- C4, counterexample: the claim "navigation makes at most N=3
attempts; after the final failed attempt the error propagates" is
false: with an operation failing on attempts 0, 1 and 2, navigation
still succeeds — a fourth attempt is made (`range(max_retries + 1)`
with `max_retries = 3`), after back-offs of 1, 2 and 4 seconds. -/
theorem safe_page_goto_three_attempts_counterexample :
    opFailsThrice 0 = Except.error "timeout" ∧
    opFailsThrice 1 = Except.error "timeout" ∧
    opFailsThrice 2 = Except.error "timeout" ∧
    (safe_page_goto opFailsThrice).1 = Except.ok () ∧
    (safe_page_goto opFailsThrice).2 = [1, 2, 4] := by
  refine ⟨rfl, rfl, rfl, rfl, ?_⟩
  show (1 : ℚ) * 2 ^ 0 :: 1 * 2 ^ 1 :: 1 * 2 ^ 2 :: [] = [1, 2, 4]
  norm_num

/-- Back-off behaviour of the retry loop, by induction on the fuel. -/
theorem retryGo_spec {E : Type} (op : ℕ → Except E Unit) (delay : ℚ) :
    ∀ fuel attempt,
      (retryGo op delay attempt fuel).2.length ≤ fuel ∧
      (retryGo op delay attempt fuel).2 =
        ((List.range (retryGo op delay attempt fuel).2.length).map
          (fun i => delay * 2 ^ (attempt + i))) ∧
      (∀ i, i < (retryGo op delay attempt fuel).2.length →
        ∃ e, op (attempt + i) = Except.error e) ∧
      ((∀ n, n ≤ fuel → ∃ e, op (attempt + n) = Except.error e) →
        (retryGo op delay attempt fuel).1 = op (attempt + fuel)) := by
  intro fuel
  induction fuel with
  | zero =>
      intro attempt
      refine ⟨le_refl 0, by simp [retryGo], by simp [retryGo], ?_⟩
      intro _
      simp [retryGo]
  | succ fuel ih =>
      intro attempt
      match hop : op attempt with
      | Except.ok a =>
          cases a
          refine ⟨?_, ?_, ?_, ?_⟩ <;>
            simp only [retryGo, hop]
          · simp
          · simp
          · simp
          · intro hall
            obtain ⟨e, he⟩ := hall 0 (Nat.zero_le _)
            rw [Nat.add_zero, hop] at he
            exact absurd he (by simp)
      | Except.error e0 =>
          obtain ⟨iha, ihb, ihc, ihd⟩ := ih (attempt + 1)
          refine ⟨?_, ?_, ?_, ?_⟩ <;>
            simp only [retryGo, hop]
          · simpa using Nat.succ_le_succ iha
          · rw [List.length_cons, List.range_succ_eq_map, List.map_cons,
              List.map_map]
            congr 1
            rw [ihb]
            simp only [List.length_map, List.length_range]
            apply List.map_congr_left
            intro i _
            simp only [Function.comp_apply]
            congr 2
            omega
          · intro i hi
            match i with
            | 0 => exact ⟨e0, by simpa using hop⟩
            | j + 1 =>
                obtain ⟨e, he⟩ := ihc j (by simpa using hi)
                refine ⟨e, ?_⟩
                rw [show attempt + (j + 1) = attempt + 1 + j from by omega]
                exact he
          · intro hall
            have hstep : ∀ n, n ≤ fuel → ∃ e, op (attempt + 1 + n) = Except.error e := by
              intro n hn
              obtain ⟨e, he⟩ := hall (n + 1) (Nat.succ_le_succ hn)
              refine ⟨e, ?_⟩
              rw [show attempt + 1 + n = attempt + (n + 1) from by omega]
              exact he
            have h2 := ihd hstep
            calc (retryGo op delay (attempt + 1) fuel).1
                = op (attempt + 1 + fuel) := h2
              _ = op (attempt + (fuel + 1)) := by congr 1; omega

/-- C4, amended: navigation makes at most 4 attempts (one initial try
plus max_retries = 3 retries); after each failed attempt except the
last it waits delay * 2^attempt seconds (1, 2, 4 with the default
delay of 1.0); each wait follows a failed attempt; and when all four
attempts fail, the error of the final attempt propagates to the
caller. -/
theorem safe_page_goto_spec {E : Type} (op : ℕ → Except E Unit) :
    (safe_page_goto op).2.length ≤ 3 ∧
    (safe_page_goto op).2 =
      ((List.range (safe_page_goto op).2.length).map (fun i => (1 : ℚ) * 2 ^ i)) ∧
    (∀ i, i < (safe_page_goto op).2.length → ∃ e, op i = Except.error e) ∧
    ((∀ n, n ≤ 3 → ∃ e, op n = Except.error e) →
      (safe_page_goto op).1 = op 3) := by
  obtain ⟨ha, hb, hc, hd⟩ := retryGo_spec op 1 3 0
  refine ⟨ha, ?_, ?_, ?_⟩
  · simpa using hb
  · intro i hi
    simpa using hc i hi
  · intro hall
    have := hd (by simpa using hall)
    simpa using this

/-- C4, witness: for the operation failing on its first three
attempts, the back-off list is [1, 2, 4] and the second wait did
follow a failed attempt. -/
theorem safe_page_goto_spec_witness :
    (safe_page_goto opFailsThrice).2 = [1, 2, 4] ∧
    (∃ e, opFailsThrice 1 = Except.error e) := by
  have h := safe_page_goto_spec opFailsThrice
  refine ⟨?_, h.2.2.1 1 (by decide)⟩
  rw [h.2.1, show (safe_page_goto opFailsThrice).2.length = 3 from rfl]
  show ((List.range 3).map (fun i => (1 : ℚ) * 2 ^ i)) = [1, 2, 4]
  simp [List.range_succ]
  norm_num

/-- Embeds `StoreInfo` (`models.py:76-82`). -/
structure StoreInfo where
  name : String
  url : String
  location : Option String := none
  state : String := "FL"
deriving Repr, DecidableEq

/-- Embeds one entry of `ScrapingConfig.categories` (`models.py:36-54`):
the navigation path and display label.  The third key of the source
dict, the output filename stem used only by the CSV collaborator, is
not representable as a Lean field name and is unused by the engine. -/
structure CategoryConfig where
  url : String
  subcategory : String
deriving Repr, DecidableEq

/-- Embeds `ScrapingConfig` (`models.py:31-57`) with its defaults; the
numeric rate-limit bounds and output directory play no role in the
claims. -/
structure ScrapingConfig where
  base_url : String := "https://www.trulieve.com"
  dispensaries_url : String := "https://www.trulieve.com/dispensaries"
  categories : List CategoryConfig :=
    [{ url := "/category/flower/whole-flower", subcategory := "Whole Flower" },
     { url := "/category/flower/pre-rolls", subcategory := "Pre-Rolls" },
     { url := "/category/flower/minis", subcategory := "Ground & Shake" }]
deriving Repr

/-- Embeds `ScrapingResult` (`models.py:60-73`) with the pydantic
field defaults: a construction site that does not pass
`total_products` leaves it at 0. -/
structure ScrapingResult where
  success : Bool
  products : List ProductData := []
  error_message : Option String := none
  categories_scraped : ℕ := 0
  stores_scraped : ℕ := 0
  total_products : ℕ := 0
  duration_seconds : Option ℚ := none
deriving Repr, DecidableEq

/-- Embeds `ScrapingResult.__post_init__` (`models.py:71-73`), which
sets `total_products = len(products)`.  This method is dead code: the
`__post_init__` hook belongs to dataclasses, and pydantic `BaseModel`
construction never invokes it. -/
def scrapingResultPostInit (r : ScrapingResult) : ScrapingResult :=
  { r with total_products := r.products.length }

/-- Outcomes of the effectful steps of one `scrape_all_categories`
run: an exception raised before store discovery (browser launch or
context creation — note the source refers to `async_playwright`
without importing it, a `NameError` that would take this path), the
outcome of `extract_store_links`, the outcome of `scrape_category` per
store and category, and an exception from `browser.close()`. -/
structure RunEnv where
  setupError : Option String
  storeLinksResult : Except String (List StoreInfo)
  categoryOutcome : StoreInfo → CategoryConfig → Except String (List ProductData)
  closeError : Option String

/-- Inner category loop of `scrape_all_categories`
(`base_scraper.py:218-233`): a failing category is logged and skipped;
a successful one extends the product list and bumps the counter. -/
def runStore (env : RunEnv) (cats : List CategoryConfig) (store : StoreInfo) :
    List ProductData × ℕ :=
  cats.foldl (fun acc cat =>
    match env.categoryOutcome store cat with
    | Except.ok ps => (acc.1 ++ ps, acc.2 + 1)
    | Except.error _ => acc) ([], 0)

/-- Store loop of `scrape_all_categories` (`base_scraper.py:214-242`):
every store is processed (the per-store handler only guards code that
cannot fail in this model) and the stores counter is bumped. -/
def runStores (env : RunEnv) (cats : List CategoryConfig)
    (stores : List StoreInfo) : List ProductData × ℕ × ℕ :=
  stores.foldl (fun acc store =>
    let r := runStore env cats store
    (acc.1 ++ r.1, acc.2.1 + r.2, acc.2.2 + 1)) ([], 0, 0)

/-- Embeds `BaseScraper.scrape_all_categories`
(`base_scraper.py:184-269`): a failure before or during store
discovery, or while closing the browser, is caught by the outer
handler and returns a failure result with empty products, the error
string, and the loop counters at that moment; otherwise a success
result with the accumulated products.  Neither construction site
passes `total_products`, so the pydantic default 0 applies.  The
wall-clock duration is passed in. -/
def scrape_all_categories (cfg : ScrapingConfig) (env : RunEnv)
    (duration : Option ℚ) : ScrapingResult :=
  match env.setupError with
  | some e =>
      { success := false, products := [], error_message := some e,
        categories_scraped := 0, stores_scraped := 0, duration_seconds := duration }
  | none =>
      match env.storeLinksResult with
      | Except.error e =>
          { success := false, products := [], error_message := some e,
            categories_scraped := 0, stores_scraped := 0,
            duration_seconds := duration }
      | Except.ok stores =>
          let st := runStores env cfg.categories stores
          match env.closeError with
          | some e =>
              { success := false, products := [], error_message := some e,
                categories_scraped := st.2.1, stores_scraped := st.2.2,
                duration_seconds := duration }
          | none =>
              { success := true, products := st.1, error_message := none,
                categories_scraped := st.2.1, stores_scraped := st.2.2,
                duration_seconds := duration }

/-- Python `str.upper()` over ASCII text: per-character uppercasing. -/
def pyUpper (s : String) : String := String.mk (s.toList.map Char.toUpper)

/-- Python `pat in s` on character lists. -/
def listContainsSub (pat : List Char) : List Char → Bool
  | [] => pat.isEmpty
  | c :: rest => pat.isPrefixOf (c :: rest) || listContainsSub pat rest

/-- Python `pat in s` on strings. -/
def strContains (s pat : String) : Bool := listContainsSub pat.toList s.toList

/-- Python `s.endswith(pat)`. -/
def strEndsWith (s pat : String) : Bool := pat.toList.isSuffixOf s.toList

/-- Embeds `looks_like_florida` (`data_extractors.py:47-67`): uppercase
the text, lowercase the href, then test the region marker tokens. -/
def looks_like_florida (href : Option String) (text : Option String) : Bool :=
  let t := pyUpper (text.getD "")
  let h := strLower (href.getD "")
  strContains t ", FL" || strEndsWith t " FL" || strContains t " FL " ||
  strContains h "/florida" || strContains h "-fl-" ||
  strEndsWith h "/fl" || strEndsWith h "-fl"

/-- Python `" ".join(text.split())`: collapse whitespace runs to
single spaces and trim the ends. -/
def normWS (s : String) : String :=
  String.intercalate " " ((s.split (fun c => pySpace c)).filter (fun w => w ≠ ""))

/-- Python `urljoin(base, href)` for the root-relative hrefs the
scraper selects (`a[href^='/dispensaries/']`): absolute hrefs pass
through, root-relative ones are appended to the base. -/
def urljoinModel (base href : String) : String :=
  if strContains href "://" then href else base ++ href

/-- One harvested anchor of the dispensaries page: its href attribute
and its visible text (an anchor whose attribute reads raised is simply
absent from the list, as the per-anchor handler skips it). -/
structure Anchor where
  href : Option String
  text : Option String

/-- First pass of `TrulieveScraper.extract_store_links`
(`trulieve_scraper.py:48-63`): keep anchors with an href containing
"/dispensaries/" not seen before; clean the text; keep Florida-looking
ones, recording (text, joined url).  A missing or empty href is falsy
in Python and skipped; an empty href also fails the substring test, so
the model folds both into the same branch. -/
def anchorPass (base : String) : List Anchor → List String → List (String × String)
  | [], _ => []
  | a :: rest, seen =>
      match a.href with
      | none => anchorPass base rest seen
      | some h =>
          if strContains h "/dispensaries/" && !(seen.contains h) then
            let t := normWS (a.text.getD "")
            if looks_like_florida (some h) (some t) then
              (t, urljoinModel base h) :: anchorPass base rest (h :: seen)
            else anchorPass base rest seen
          else anchorPass base rest seen

/-- Second pass of `extract_store_links` (`trulieve_scraper.py:65-77`):
dedupe by store name, first occurrence winning. -/
def nameDedup : List (String × String) → List String → List StoreInfo
  | [], _ => []
  | (n, u) :: rest, seen =>
      if seen.contains n then nameDedup rest seen
      else { name := n, url := u, location := some n, state := "FL" } ::
        nameDedup rest (n :: seen)

/-- Embeds `TrulieveScraper.extract_store_links`
(`trulieve_scraper.py:24-84`).  The navigation to the dispensaries
page and the anchor harvest are abstracted into `fetch`.  The whole
body sits in a `try/except Exception` that logs and returns `[]`
(lines 82-84), so a failed directory fetch yields an empty store list
instead of propagating. -/
def trulieve_extract_store_links (cfg : ScrapingConfig)
    (fetch : Except String (List Anchor)) : List StoreInfo :=
  match fetch with
  | Except.error _ => []
  | Except.ok anchors => nameDedup (anchorPass cfg.base_url anchors []) []

/-- Default configuration value. -/
def cfgDefault : ScrapingConfig := {}

/-- Environment of a run whose directory page could not be fetched,
with store discovery going through `TrulieveScraper`'s handler. -/
def envDiscoveryDown : RunEnv :=
  { setupError := none,
    storeLinksResult := Except.ok (trulieve_extract_store_links cfgDefault
      (Except.error "net::ERR_CONNECTION_REFUSED")),
    categoryOutcome := fun _ _ => Except.ok [],
    closeError := none }

/-- C3, counterexample: when the directory page cannot be reached,
`TrulieveScraper.extract_store_links` swallows the error and returns
an empty store list, so the run completes with success = true, zero
products and no error message — not the claimed Failed transition
with success = false and a captured error message. -/
theorem discovery_failure_counterexample :
    trulieve_extract_store_links cfgDefault
      (Except.error "net::ERR_CONNECTION_REFUSED") = [] ∧
    (scrape_all_categories cfgDefault envDiscoveryDown none).success = true ∧
    (scrape_all_categories cfgDefault envDiscoveryDown none).products = [] ∧
    (scrape_all_categories cfgDefault envDiscoveryDown none).error_message = none := by
  refine ⟨rfl, rfl, rfl, rfl⟩

/-- C3, amended: if `extract_store_links` raises to the coordinator,
the run fails with success = false, an empty product list and the
captured error message, while a discovery that returns zero stores
completes with success = true and zero products; but the concrete
`TrulieveScraper.extract_store_links` catches its own failures and
returns an empty list, so an unreachable directory page completes the
run like a zero-store discovery instead of failing it. -/
theorem scrape_all_categories_discovery_spec (cfg : ScrapingConfig)
    (env : RunEnv) (d : Option ℚ) :
    (∀ e : String, env.setupError = none →
      env.storeLinksResult = Except.error e →
      scrape_all_categories cfg env d =
        { success := false, products := [], error_message := some e,
          categories_scraped := 0, stores_scraped := 0,
          duration_seconds := d }) ∧
    (env.setupError = none → env.storeLinksResult = Except.ok [] →
      env.closeError = none →
      (scrape_all_categories cfg env d).success = true ∧
      (scrape_all_categories cfg env d).products = []) ∧
    (∀ err : String, trulieve_extract_store_links cfg (Except.error err) = []) := by
  refine ⟨?_, ?_, ?_⟩
  · intro e hs he
    simp [scrape_all_categories, hs, he]
  · intro hs he hc
    simp [scrape_all_categories, hs, he, hc, runStores]
  · intro err
    rfl

/-- Environment whose store discovery raises to the coordinator. -/
def envBoom : RunEnv :=
  { setupError := none, storeLinksResult := Except.error "boom",
    categoryOutcome := fun _ _ => Except.ok [], closeError := none }

/-- Environment whose store discovery succeeds with zero stores. -/
def envNoStores : RunEnv :=
  { setupError := none, storeLinksResult := Except.ok [],
    categoryOutcome := fun _ _ => Except.ok [], closeError := none }

/-- C3, witness: a raising discovery fails the run with the message;
a zero-store discovery succeeds with zero products; a failed fetch
gives Trulieve an empty store list. -/
theorem scrape_all_categories_discovery_spec_witness :
    scrape_all_categories cfgDefault envBoom none =
      { success := false, products := [], error_message := some "boom",
        categories_scraped := 0, stores_scraped := 0,
        duration_seconds := none } ∧
    (scrape_all_categories cfgDefault envNoStores none).success = true ∧
    (scrape_all_categories cfgDefault envNoStores none).products = [] ∧
    trulieve_extract_store_links cfgDefault (Except.error "dns failure") = [] := by
  have h := scrape_all_categories_discovery_spec cfgDefault envBoom none
  have h2 := scrape_all_categories_discovery_spec cfgDefault envNoStores none
  exact ⟨h.1 "boom" rfl rfl, (h2.2.1 rfl rfl rfl).1, (h2.2.1 rfl rfl rfl).2,
    h.2.2 "dns failure"⟩

/-- A concrete store for the run evaluation. -/
def storeMiami : StoreInfo :=
  { name := "Trulieve Miami",
    url := "https://www.trulieve.com/dispensaries/miami-fl" }

/-- A single-category configuration. -/
def cfgOne : ScrapingConfig :=
  { categories := [{ url := "/category/flower/whole-flower",
                     subcategory := "Whole Flower" }] }

/-- Environment of a healthy run: one store, one category, yielding
one product. -/
def envC1 : RunEnv :=
  { setupError := none, storeLinksResult := Except.ok [storeMiami],
    categoryOutcome := fun _ _ => Except.ok [pdA], closeError := none }

/-- C1: the claim that `total_products` always equals the length of
the product list fails on the success path — both construction sites
of `scrape_all_categories` omit `total_products`, and pydantic
`BaseModel` never calls the `__post_init__` that was written to set
it, so a successful run with one product reports `total_products = 0`.
The same slip makes the repository's own test
(`tests/test_storage.py`, `test_scraping_result_creation`, which
asserts `total_products == 3` after constructing a result with three
products) fail, mirrored by the last conjunct; the dead
`scrapingResultPostInit` would have given 1. -/
theorem scrape_all_categories_total_products_bug :
    (scrape_all_categories cfgOne envC1 (some 12)).success = true ∧
    (scrape_all_categories cfgOne envC1 (some 12)).products.length = 1 ∧
    (scrape_all_categories cfgOne envC1 (some 12)).total_products = 0 ∧
    (scrapingResultPostInit
      (scrape_all_categories cfgOne envC1 (some 12))).total_products = 1 ∧
    ({ success := true, products := [pdA, pdB, pdA], categories_scraped := 2,
       stores_scraped := 5,
       duration_seconds := some (241/2) } : ScrapingResult).total_products = 0 := by
  refine ⟨rfl, rfl, rfl, rfl, rfl⟩
